import Mathlib

/-!
Verification development for the lap-corner analysis pipeline of
`api/app.py` (repository `behind-the-grid`).

The Python floats are modelled as rationals (`ℚ`).  Two operations of the
source have irrational results on rationals and are therefore taken as
parameters of the embedding:

* `hyp` models `math.hypot` (used only by `_build_series`);
* `pw`  models `t ↦ t ** 1.5` (used only by the curvature fallback).

Every theorem below is universally quantified over these parameters, and
every concrete evaluation instantiates them with explicit functions that
agree with the real ones on the inputs used (axis-aligned displacements,
or inputs that never reach the curvature fallback).

Python list indexing is modelled with `List.getD _ 0`; every index that the
source actually uses is in range, so the default is never observed on the
pipeline's own traces.
-/

namespace BehindTheGrid

/-- Python `a or b` for a nullable float `a`: `b` when `a` is `None` **or**
`0.0` (both are falsy), `a` otherwise. -/
def pyOr (v : Option ℚ) (d : ℚ) : ℚ :=
  match v with
  | none => d
  | some q => if q = 0 then d else q

/-- Python `int(q)`: truncation toward zero. -/
def pyInt (q : ℚ) : ℤ :=
  if q < 0 then -((-q).floor) else q.floor

/-- Python `l[s:e]` for non-negative bounds (both clamp to the length). -/
def pySlice (l : List ℚ) (s e : ℕ) : List ℚ :=
  (l.drop s).take (e - s)

/-- Python `min(l)` for a list of floats (0 as a junk value on `[]`,
which the source never hits). -/
def listMin (l : List ℚ) : ℚ :=
  match l with
  | [] => 0
  | h :: t => t.foldl min h

/-- Python `max(l)` (0 as a junk value on `[]`). -/
def listMax (l : List ℚ) : ℚ :=
  match l with
  | [] => 0
  | h :: t => t.foldl max h

/-- One raw telemetry row as returned by `_fetch_lap_telemetry`:
every field nullable. -/
structure Sample where
  ts : Option ℚ
  speed : Option ℚ
  throttle : Option ℚ
  brake : Option ℚ
  x : Option ℚ
  y : Option ℚ
deriving DecidableEq, Repr

def sampleDefault : Sample := ⟨none, none, none, none, none, none⟩

/-- The dict built by `_build_series` / `_resample_series`: seven parallel
arrays. -/
structure Series where
  dist : List ℚ
  time : List ℚ
  speed : List ℚ
  throttle : List ℚ
  brake : List ℚ
  x : List ℚ
  y : List ℚ
deriving DecidableEq, Repr

/-- A corner record (`build_corner`'s dict); `corner` is the 1-based index
assigned by the renumbering passes, 0 before any renumbering. -/
structure Corner where
  distanceStart : ℚ
  distanceEnd : ℚ
  entrySpeed : ℚ
  apexSpeed : ℚ
  exitSpeed : ℚ
  brakePeak : ℚ
  throttleExitVal : ℚ
  deltaS : Option ℚ
  corner : ℕ
deriving DecidableEq, Repr

/-- A `top_losses` entry: `{corner, delta_s}`. -/
structure Loss where
  corner : ℕ
  delta_s : ℚ
deriving DecidableEq, Repr

/-- The output contract of `/laps/corners`. -/
structure AnalysisResult where
  corners : List Corner
  topLosses : List Loss
deriving DecidableEq, Repr

/-- `rows` with samples missing position or timestamp removed
(`_build_series` line 200). -/
def validSamples (rows : List Sample) : List Sample :=
  rows.filter (fun r => r.x.isSome && r.y.isSome && r.ts.isSome)

/-- The accumulation loop of `_build_series` (lines 216-232): one step per
remaining sample, carrying the previous position and the first timestamp. -/
def buildLoop (hyp : ℚ → ℚ → ℚ) (prevX prevY startTs : ℚ) (acc : Series) :
    List Sample → Series
  | [] => acc
  | s :: rest =>
    let x := s.x.getD 0
    let y := s.y.getD 0
    let ts := s.ts.getD 0
    let seg := hyp (x - prevX) (y - prevY)
    let acc' : Series :=
      { dist := acc.dist ++ [acc.dist.getLastD 0 + seg]
        time := acc.time ++ [ts - startTs]
        speed := acc.speed ++ [pyOr s.speed (acc.speed.getLastD 0)]
        throttle := acc.throttle ++ [pyOr s.throttle (acc.throttle.getLastD 0)]
        brake := acc.brake ++ [pyOr s.brake (acc.brake.getLastD 0)]
        x := acc.x ++ [x]
        y := acc.y ++ [y] }
    buildLoop hyp x y startTs acc' rest

/-- The first-sample seed plus the loop (`_build_series` lines 204-232). -/
def mkSeries (hyp : ℚ → ℚ → ℚ) (samples : List Sample) : Series :=
  let s0 := samples.headD sampleDefault
  buildLoop hyp (s0.x.getD 0) (s0.y.getD 0) (s0.ts.getD 0)
    { dist := [0]
      time := [0]
      speed := [pyOr s0.speed 0]
      throttle := [pyOr s0.throttle 0]
      brake := [pyOr s0.brake 0]
      x := [s0.x.getD 0]
      y := [s0.y.getD 0] }
    samples.tail

/-- `_build_series`: `None` when fewer than 2 valid samples remain. -/
def build_series (hyp : ℚ → ℚ → ℚ) (rows : List Sample) : Option Series :=
  let samples := validSamples rows
  if samples.length < 2 then none else some (mkSeries hyp samples)

/-- `_moving_average` (lines 245-254): symmetric moving average with edge
padding; no-op for `window ≤ 1` or length `≤ 2`. -/
def moving_average (values : List ℚ) (window : ℕ) : List ℚ :=
  if window ≤ 1 ∨ values.length ≤ 2 then values
  else
    let half := window / 2
    let extended :=
      List.replicate half (values.headD 0) ++ values ++
        List.replicate half (values.getLastD 0)
    (List.range values.length).map (fun i =>
      let seg := (extended.drop i).take window
      seg.sum / (seg.length : ℚ))

/-- The automatic resample grid (`_resample_series` lines 260-264):
`{0, step, 2·step, …}` clipped to the total, final point forced to the
total. -/
def gridBase (total stp : ℚ) (m : ℕ) : List ℚ :=
  (List.range m).map (fun i : ℕ => min total ((i : ℚ) * stp))

def autoGrid (total stp : ℚ) : List ℚ :=
  let steps := (max (pyInt (total / stp)) 1).toNat
  let grid := gridBase total stp (steps + 1)
  if grid.getLastD 0 = total then grid else grid ++ [total]

/-- The `while idx < len(dist) and dist[idx] < target: idx += 1` pointer
advance of `_resample_series` (fuel-driven; fuel `dist.length` is enough
because `idx` never exceeds the length). -/
def advanceIdx (dist : List ℚ) (target : ℚ) : ℕ → ℕ → ℕ
  | 0, i => i
  | fuel + 1, i =>
    if i < dist.length ∧ dist.getD i 0 < target then
      advanceIdx dist target fuel (i + 1)
    else i

/-- The bracketing index used for every grid point, threading `idx`
across targets exactly as the Python loop does (it starts at 1 and only
advances). -/
def resampleIdxs (dist : List ℚ) (grid : List ℚ) : List ℕ :=
  (grid.foldl
    (fun (acc : ℕ × List ℕ) target =>
      let i := advanceIdx dist target dist.length acc.1
      (i, acc.2 ++ [i]))
    (1, [])).2

/-- Linear interpolation of one field over the grid (lines 272-286),
clamping to the last sample past the end and using ratio 0 on coincident
distances. -/
def interpField (dist vals : List ℚ) (pairs : List (ℚ × ℕ)) : List ℚ :=
  pairs.map (fun p =>
    let target := p.1
    let i := p.2
    if i ≥ dist.length then vals.getLastD 0
    else
      let d0 := dist.getD (i - 1) 0
      let d1 := dist.getD i 0
      let ratio := if d1 = d0 then 0 else (target - d0) / (d1 - d0)
      let v0 := vals.getD (i - 1) 0
      let v1 := vals.getD i 0
      v0 + ratio * (v1 - v0))

/-- `_resample_series`: grid construction plus per-field interpolation. -/
def resample_series (series : Series) (stp : ℚ) (grid? : Option (List ℚ)) :
    Series :=
  let dist := series.dist
  let total := dist.getLastD 0
  let grid := match grid? with
    | some g => g
    | none => autoGrid total stp
  let idxs := resampleIdxs dist grid
  let pairs := grid.zip idxs
  { dist := grid
    time := interpField dist series.time pairs
    speed := interpField dist series.speed pairs
    throttle := interpField dist series.throttle pairs
    brake := interpField dist series.brake pairs
    x := interpField dist series.x pairs
    y := interpField dist series.y pairs }

/-- State of the braking state machine (`_detect_corners` lines 322-325):
`braking = false` is Python's `"idle"`. -/
structure MachineState where
  braking : Bool
  startIdx : ℕ
  sustain : ℕ
  segs : List (ℕ × ℕ)
deriving DecidableEq, Repr

/-- One iteration of the scan over the smoothed brake trace
(lines 327-340).  `idx - 1` on `ℕ` is Python's `max(0, idx - 1)`. -/
def machineStep (bOn bOff tExit minD : ℚ) (dist sb st : List ℚ)
    (s : MachineState) (idx : ℕ) : MachineState :=
  if s.braking = false then
    if bOn ≤ sb.getD idx 0 then
      { s with braking := true, startIdx := idx - 1, sustain := 0 }
    else s
  else
    let su := if tExit ≤ st.getD idx 0 then s.sustain + 1 else 0
    if sb.getD idx 0 ≤ bOff ∧ 3 ≤ su then
      { braking := false, startIdx := s.startIdx, sustain := 0
        segs :=
          if 3 ≤ idx - s.startIdx ∧
              minD ≤ dist.getD idx 0 - dist.getD s.startIdx 0 then
            s.segs ++ [(s.startIdx, idx)]
          else s.segs }
    else { s with sustain := su }

/-- The whole primary scan: fold the step over the index range of the
smoothed brake trace from the idle initial state. -/
def runMachine (bOn bOff tExit minD : ℚ) (dist sb st : List ℚ) :
    MachineState :=
  (List.range sb.length).foldl (machineStep bOn bOff tExit minD dist sb st)
    ⟨false, 0, 0, []⟩

/-- First derivatives with respect to index (lines 347-355): central
differences, both boundary entries clamped to the nearest interior
derivative.  (Only used for length > 2, as in the source.) -/
def firstDerivs (v : List ℚ) : List ℚ :=
  let n := v.length
  (List.range n).map (fun i =>
    if i = 0 then (v.getD 2 0 - v.getD 0 0) / 2
    else if i = n - 1 then (v.getD (n - 1) 0 - v.getD (n - 3) 0) / 2
    else (v.getD (i + 1) 0 - v.getD (i - 1) 0) / 2)

/-- Second derivatives (lines 357-361): central differences on interior
indices only; both boundary entries keep their initial value `0.0`
(the source has no clamp assignments here). -/
def innerDerivs (v : List ℚ) : List ℚ :=
  let n := v.length
  (List.range n).map (fun i =>
    if 1 ≤ i ∧ i ≤ n - 2 then (v.getD (i + 1) 0 - v.getD (i - 1) 0) / 2
    else 0)

/-- `while i < len and curvature[i] > threshold: i += 1` — first index
`≥ j` at which the run of above-threshold curvature stops. -/
def runEnd (curv : List ℚ) (thr : ℚ) : ℕ → ℕ → ℕ
  | 0, j => j
  | fuel + 1, j =>
    if j < curv.length ∧ thr < curv.getD j 0 then runEnd curv thr fuel (j + 1)
    else j

/-- The run-extraction loop of the curvature fallback (lines 371-383).
Each fuel step either skips one below-threshold index or consumes one
whole run, and the cursor strictly increases, so fuel `curv.length + 1`
reproduces the `while` loop exactly. -/
def curvRuns (curv : List ℚ) (thr : ℚ) (dist : List ℚ) (minD : ℚ) :
    ℕ → ℕ → List (ℕ × ℕ)
  | 0, _ => []
  | fuel + 1, i =>
    let n := curv.length
    if i ≥ n then []
    else if ¬ thr < curv.getD i 0 then curvRuns curv thr dist minD fuel (i + 1)
    else
      let s := i
      let j := runEnd curv thr n (i + 1)
      let e := min (n - 1) j
      let rest := curvRuns curv thr dist minD fuel (e + 1)
      if minD ≤ dist.getD e 0 - dist.getD s 0 then (s, e) :: rest else rest

/-- The curvature fallback (lines 343-383), producing candidate segments
from path geometry.  `pw` models `t ** 1.5`. -/
def curvatureSegments (pw : ℚ → ℚ) (xs ys dist : List ℚ) (minD : ℚ) :
    List (ℕ × ℕ) :=
  if 2 < xs.length ∧ 2 < ys.length then
    let dx := firstDerivs xs
    let dy := firstDerivs ys
    let ddx := innerDerivs dx
    let ddy := innerDerivs dy
    let curvature := (List.range xs.length).map (fun i =>
      let numerator := |dx.getD i 0 * ddy.getD i 0 - dy.getD i 0 * ddx.getD i 0|
      let denom := pw ((dx.getD i 0) ^ 2 + (dy.getD i 0) ^ 2)
      if denom = 0 then 0 else numerator / denom)
    if curvature.any (fun c => c ≠ 0) then
      let threshold :=
        (curvature.insertionSort (· ≤ ·)).getD
          (pyInt ((curvature.length : ℚ) * (4 / 5))).toNat 0
      curvRuns curvature threshold dist minD (curvature.length + 1) 1
    else []
  else []

/-- Stable ascending sort by a rational key (Python `list.sort(key=...)`
and `sorted(key=...)`). -/
def sortByKey {α : Type} (key : α → ℚ) (l : List α) : List α :=
  l.insertionSort (fun a b => key a ≤ key b)

/-- Stable descending sort by a rational key
(Python `sorted(key=..., reverse=True)`). -/
def sortByKeyDesc {α : Type} (key : α → ℚ) (l : List α) : List α :=
  l.insertionSort (fun a b => key b ≤ key a)

/-- The merge pass (lines 388-398): absorb a candidate into the previous
one when the distance gap is at most 60. -/
def mergeSegments (dist : List ℚ) (segs : List (ℕ × ℕ)) : List (ℕ × ℕ) :=
  segs.foldl
    (fun acc se =>
      match acc.getLast? with
      | none => [se]
      | some pe =>
        if dist.getD se.1 0 - dist.getD pe.2 0 ≤ 60 then
          acc.dropLast ++ [(pe.1, max pe.2 se.2)]
        else acc ++ [se])
    []

/-- `build_corner` (lines 400-433): feature extraction with the three
rejection rules, and the optional comparison delta. -/
def build_corner (reference : Series) (compare : Option Series)
    (minD minTime minDrop mPeak : ℚ) (se : ℕ × ℕ) : Option Corner :=
  let s := se.1
  let e := se.2
  let dist := reference.dist
  let distance := dist.getD e 0 - dist.getD s 0
  if distance < minD then none
  else
    let timeSpan := reference.time.getD e 0 - reference.time.getD s 0
    if timeSpan < minTime then none
    else
      let entry := reference.speed.getD s 0
      let exitS := reference.speed.getD e 0
      let apexSlice := pySlice reference.speed s (e + 1)
      let apexOffset := apexSlice.findIdx (fun q => decide (q = listMin apexSlice))
      let apexIdx := s + apexOffset
      let apex := reference.speed.getD apexIdx 0
      let speedDrop := entry - apex
      let brakePeak := listMax (pySlice reference.brake s (e + 1))
      if speedDrop < minDrop ∧ brakePeak < mPeak then none
      else
        let tev := reference.throttle.getD e 0
        let refDt := reference.time.getD e 0 - reference.time.getD s 0
        let cmpDt := compare.map (fun c => c.time.getD e 0 - c.time.getD s 0)
        some
          { distanceStart := dist.getD s 0
            distanceEnd := dist.getD e 0
            entrySpeed := entry
            apexSpeed := apex
            exitSpeed := exitS
            brakePeak := brakePeak
            throttleExitVal := tev
            deltaS := cmpDt.map (fun cd => cd - refDt)
            corner := 0 }

/-- The speed-minima fallback (lines 441-470). -/
def expandLeft (dist : List ℚ) (apexD pre : ℚ) : ℕ → ℕ
  | 0 => 0
  | l + 1 =>
    if apexD - dist.getD l 0 ≤ pre then expandLeft dist apexD pre l
    else l + 1

def expandRight (dist : List ℚ) (apexD post : ℚ) : ℕ → ℕ → ℕ
  | 0, r => r
  | fuel + 1, r =>
    if r < dist.length - 1 ∧ dist.getD (r + 1) 0 - apexD ≤ post then
      expandRight dist apexD post fuel (r + 1)
    else r

def trimLeft (ss : List ℚ) (left : ℕ) : ℕ → ℕ
  | 0 => 0
  | s + 1 =>
    if left ≤ s ∧ ss.getD (s + 1) 0 ≤ ss.getD s 0 then trimLeft ss left s
    else s + 1

def trimRight (ss : List ℚ) (bound : ℕ) : ℕ → ℕ → ℕ
  | 0, e => e
  | fuel + 1, e =>
    if e < bound ∧ ss.getD e 0 ≤ ss.getD (e + 1) 0 then
      trimRight ss bound fuel (e + 1)
    else e

/-- `speed_drop_fallback` (lines 441-470): strict local minima of the
smoothed speed, expanded within the 120/160 pre/post windows, kept when
the larger side drop reaches `min_drop`, trimmed to the monotone runs
around the apex, and filtered by `min_distance`. -/
def speed_drop_fallback (dist smoothSpeed : List ℚ) (minDrop minD : ℚ) :
    List (ℕ × ℕ) :=
  (List.range' 2 (dist.length - 4)).filterMap (fun i =>
    if smoothSpeed.getD i 0 < smoothSpeed.getD (i - 1) 0 ∧
        smoothSpeed.getD i 0 ≤ smoothSpeed.getD (i + 1) 0 then
      let apexD := dist.getD i 0
      let left := expandLeft dist apexD 120 i
      let right := expandRight dist apexD 160 dist.length i
      let entry := listMax (pySlice smoothSpeed left (i + 1))
      let exitS := listMax (pySlice smoothSpeed i (right + 1))
      let apex := smoothSpeed.getD i 0
      let drop := max (entry - apex) (exitS - apex)
      if drop < minDrop then none
      else
        let s := trimLeft smoothSpeed left i
        let e := trimRight smoothSpeed right dist.length i
        if dist.getD e 0 - dist.getD s 0 < minD then none
        else some (s, e)
    else none)

/-- `score` (lines 486-487). -/
def score (c : Corner) : ℚ :=
  (c.entrySpeed - c.apexSpeed) + (1 / 2) * c.brakePeak

/-- `for idx, corner in enumerate(corners, start=k): corner["corner"] = idx`. -/
def renumberFrom (k : ℕ) : List Corner → List Corner
  | [] => []
  | c :: t => { c with corner := k } :: renumberFrom (k + 1) t

/-- The corner list before scoring: primary (or curvature) segments,
merged, extracted, plus the speed-minima augmentation when fewer than 12
corners survive (lines 322-477). -/
def cornersPre (pw : ℚ → ℚ) (reference : Series) (compare : Option Series)
    (bOn bOff tExit minD minDrop minTime mPeak : ℚ) : List Corner :=
  let dist := reference.dist
  let smoothSpeed := moving_average reference.speed 9
  let smoothBrake := moving_average reference.brake 9
  let smoothThrottle := moving_average reference.throttle 9
  let primary := (runMachine bOn bOff tExit minD dist smoothBrake smoothThrottle).segs
  let segments :=
    if primary = [] ∧ reference.x ≠ [] ∧ reference.y ≠ [] then
      curvatureSegments pw reference.x reference.y dist minD
    else primary
  let segments := sortByKey (fun se => dist.getD se.1 0) segments
  let merged := mergeSegments dist segments
  let corners := merged.filterMap (build_corner reference compare minD minTime minDrop mPeak)
  if corners.length < 12 then
    corners ++
      (speed_drop_fallback dist smoothSpeed minDrop minD).filterMap
        (build_corner reference compare minD minTime minDrop mPeak)
  else corners

/-- The scoring/selection tail of `_detect_corners` (lines 479-494):
sort, renumber, keep the top 22 by score, re-sort, renumber. -/
def finalize (corners : List Corner) : List Corner :=
  if corners = [] then []
  else
    let c1 := renumberFrom 1 (sortByKey (fun c => c.distanceStart) corners)
    let c2 := (sortByKeyDesc score c1).take 22
    let c3 := sortByKey (fun c => c.distanceStart) c2
    renumberFrom 1 c3

/-- `_detect_corners`: threshold normalization (`scale01`), detection,
extraction, selection. -/
def detect_corners (pw : ℚ → ℚ) (reference : Series) (compare : Option Series)
    (brake_on brake_off throttle_exit min_distance min_drop min_time
      min_peak_brake : ℚ) (scale01 : Bool) : List Corner :=
  let bOn := if scale01 then brake_on / 100 else brake_on
  let bOff := if scale01 then brake_off / 100 else brake_off
  let tExit := if scale01 then throttle_exit / 100 else throttle_exit
  let mPeak := if scale01 then min_peak_brake / 100 else min_peak_brake
  finalize (cornersPre pw reference compare bOn bOff tExit min_distance
    min_drop min_time mPeak)

/-- The `top_losses` computation of `lap_corners` (lines 545-553):
positive deltas, descending, top 3, projected. -/
def topLossesOf (corners : List Corner) : List Loss :=
  (((sortByKeyDesc (fun c => c.deltaS.getD 0)
        (corners.filter (fun c =>
          match c.deltaS with
          | some d => decide (0 < d)
          | none => false))).take 3).map
    (fun c => ⟨c.corner, c.deltaS.getD 0⟩))

/-- Corners plus ranked losses for already-resampled series
(lines 532-553). -/
def analyze (pw : ℚ → ℚ) (reference : Series) (compare : Option Series)
    (brake_on brake_off throttle_exit min_distance min_drop min_time
      min_peak_brake : ℚ) (scale01 : Bool) : AnalysisResult :=
  let corners := detect_corners pw reference compare brake_on brake_off
    throttle_exit min_distance min_drop min_time min_peak_brake scale01
  ⟨corners, topLossesOf corners⟩

/-- The pure tail of the `/laps/corners` handler (lines 523-555), after the
database fetches: series building, the empty-result guard, resampling on
the shared grid, detection and ranking.  `cmpRequested` is
`compare_lap is not None`; `cmp_rows = []` also yields no comparison
series (Python truthiness of the fetched list). -/
def lap_corners (hyp : ℚ → ℚ → ℚ) (pw : ℚ → ℚ)
    (ref_rows : List Sample) (cmpRequested : Bool) (cmp_rows : List Sample)
    (stp brake_on brake_off throttle_exit min_distance min_drop min_time
      min_peak_brake : ℚ) (scale01 : Bool) : AnalysisResult :=
  let refSeries := build_series hyp ref_rows
  let cmpSeries :=
    if cmpRequested ∧ cmp_rows ≠ [] then build_series hyp cmp_rows else none
  match refSeries with
  | none => ⟨[], []⟩
  | some rs =>
    if cmpRequested ∧ cmpSeries = none then ⟨[], []⟩
    else
      let refResampled := resample_series rs stp none
      let grid := refResampled.dist
      let cmpResampled := cmpSeries.map (fun cs => resample_series cs stp (some grid))
      analyze pw refResampled cmpResampled brake_on brake_off throttle_exit
        min_distance min_drop min_time min_peak_brake scale01

/-! ### Generic helper lemmas -/

/-- A corner with its 1-based index forgotten; two corners with the same
`stripIdx` agree on every feature field. -/
def stripIdx (c : Corner) : Corner := { c with corner := 0 }

lemma stripIdx_fields {a b : Corner} (h : stripIdx a = stripIdx b) :
    a.distanceStart = b.distanceStart ∧ a.distanceEnd = b.distanceEnd ∧
      a.deltaS = b.deltaS := by
  have h1 : (stripIdx a).distanceStart = (stripIdx b).distanceStart :=
    congrArg _ h
  have h2 : (stripIdx a).distanceEnd = (stripIdx b).distanceEnd := congrArg _ h
  have h3 : (stripIdx a).deltaS = (stripIdx b).deltaS := congrArg _ h
  exact ⟨h1, h2, h3⟩

lemma perm_sortByKey {α : Type} (key : α → ℚ) (l : List α) :
    List.Perm (sortByKey key l) l :=
  List.perm_insertionSort _ l

lemma mem_sortByKey {α : Type} {key : α → ℚ} {l : List α} {a : α} :
    a ∈ sortByKey key l ↔ a ∈ l :=
  List.mem_insertionSort _

lemma perm_sortByKeyDesc {α : Type} (key : α → ℚ) (l : List α) :
    List.Perm (sortByKeyDesc key l) l :=
  List.perm_insertionSort _ l

lemma mem_sortByKeyDesc {α : Type} {key : α → ℚ} {l : List α} {a : α} :
    a ∈ sortByKeyDesc key l ↔ a ∈ l :=
  List.mem_insertionSort _

lemma sorted_sortByKey {α : Type} (key : α → ℚ) (l : List α) :
    (sortByKey key l).Sorted (fun a b => key a ≤ key b) := by
  haveI : IsTotal α (fun a b => key a ≤ key b) :=
    ⟨fun a b => le_total (key a) (key b)⟩
  haveI : IsTrans α (fun a b => key a ≤ key b) :=
    ⟨fun _ _ _ hab hbc => le_trans hab hbc⟩
  exact List.sorted_insertionSort _ _

lemma sorted_sortByKeyDesc {α : Type} (key : α → ℚ) (l : List α) :
    (sortByKeyDesc key l).Sorted (fun a b => key b ≤ key a) := by
  haveI : IsTotal α (fun a b => key b ≤ key a) :=
    ⟨fun a b => le_total (key b) (key a)⟩
  haveI : IsTrans α (fun a b => key b ≤ key a) :=
    ⟨fun _ _ _ hab hbc => le_trans hbc hab⟩
  exact List.sorted_insertionSort _ _

lemma length_renumberFrom (k : ℕ) (l : List Corner) :
    (renumberFrom k l).length = l.length := by
  induction l generalizing k with
  | nil => rfl
  | cons c t ih => simp [renumberFrom, ih]

lemma map_corner_renumberFrom (k : ℕ) (l : List Corner) :
    (renumberFrom k l).map (fun c => c.corner) = List.range' k l.length := by
  induction l generalizing k with
  | nil => rfl
  | cons c t ih => simp [renumberFrom, List.range'_succ, ih]

lemma mem_renumberFrom {c : Corner} {k : ℕ} {l : List Corner}
    (h : c ∈ renumberFrom k l) : ∃ c₀ ∈ l, stripIdx c = stripIdx c₀ := by
  induction l generalizing k with
  | nil => simp [renumberFrom] at h
  | cons d t ih =>
    simp only [renumberFrom, List.mem_cons] at h
    rcases h with h | h
    · exact ⟨d, List.mem_cons_self d t, by simp [h, stripIdx]⟩
    · obtain ⟨c₀, hc₀, hs⟩ := ih h
      exact ⟨c₀, List.mem_cons_of_mem _ hc₀, hs⟩

lemma map_key_renumberFrom (key : Corner → ℚ)
    (hkey : ∀ c n, key { c with corner := n } = key c) (k : ℕ)
    (l : List Corner) : (renumberFrom k l).map key = l.map key := by
  induction l generalizing k with
  | nil => rfl
  | cons c t ih => simp [renumberFrom, hkey, ih]

lemma sorted_iff_map_key {α : Type} (key : α → ℚ) (l : List α) :
    l.Sorted (fun a b => key a ≤ key b) ↔ (l.map key).Pairwise (· ≤ ·) :=
  (List.pairwise_map).symm

lemma sorted_renumberFrom {key : Corner → ℚ}
    (hkey : ∀ c n, key { c with corner := n } = key c) {k : ℕ}
    {l : List Corner} (h : l.Sorted (fun a b => key a ≤ key b)) :
    (renumberFrom k l).Sorted (fun a b => key a ≤ key b) := by
  rw [sorted_iff_map_key, map_key_renumberFrom key hkey]
  exact (sorted_iff_map_key key l).mp h

/-! ### C7: the automatic resample grid -/

lemma sorted_gridBase (total stp : ℚ) (h : 0 < stp) (m : ℕ) :
    (gridBase total stp m).Sorted (· ≤ ·) := by
  rw [gridBase, List.Sorted, List.pairwise_map]
  refine (List.pairwise_lt_range _).imp (fun hij => ?_)
  exact min_le_min le_rfl
    (mul_le_mul_of_nonneg_right (by exact_mod_cast le_of_lt hij) (le_of_lt h))

lemma le_gridBase (total stp : ℚ) (m : ℕ) :
    ∀ g ∈ gridBase total stp m, g ≤ total := by
  intro g hg
  rw [gridBase, List.mem_map] at hg
  obtain ⟨i, _, rfl⟩ := hg
  exact min_le_left _ _

lemma gridBase_ne_nil (total stp : ℚ) (m : ℕ) (hm : 0 < m) :
    gridBase total stp m ≠ [] := by
  rw [gridBase, ← List.length_pos]
  simpa using hm

lemma autoGrid_core (total stp : ℚ) (h : 0 < stp) :
    (autoGrid total stp).Sorted (· ≤ ·) ∧
      (∀ g ∈ autoGrid total stp, g ≤ total) ∧
      (autoGrid total stp).getLast? = some total := by
  have hsorted := sorted_gridBase total stp h
    ((max (pyInt (total / stp)) 1).toNat + 1)
  have hle := le_gridBase total stp ((max (pyInt (total / stp)) 1).toNat + 1)
  have hne := gridBase_ne_nil total stp
    ((max (pyInt (total / stp)) 1).toNat + 1) (Nat.succ_pos _)
  rw [autoGrid]
  by_cases hlast :
      (gridBase total stp ((max (pyInt (total / stp)) 1).toNat + 1)).getLastD 0
        = total
  · rw [if_pos hlast]
    refine ⟨hsorted, hle, ?_⟩
    rw [List.getLastD_eq_getLast?] at hlast
    cases hl? :
        (gridBase total stp
          ((max (pyInt (total / stp)) 1).toNat + 1)).getLast? with
    | none => exact absurd (List.getLast?_eq_none_iff.mp hl?) hne
    | some g =>
      rw [hl?] at hlast
      simp only [Option.getD_some] at hlast
      rw [hlast]
  · rw [if_neg hlast]
    refine ⟨?_, ?_, List.getLast?_concat _⟩
    · rw [List.Sorted, List.pairwise_append]
      exact ⟨hsorted, List.pairwise_singleton _ _,
        fun a ha b hb => by
          rw [List.mem_singleton] at hb
          rw [hb]
          exact hle a ha⟩
    · intro g hg
      rcases List.mem_append.mp hg with hg | hg
      · exact hle g hg
      · rw [List.mem_singleton] at hg
        rw [hg]

/-- **C7** (confirmed).  For every total path length and every positive
step, the automatically built resample grid is non-decreasing, bounded
above by the total, and ends exactly at the total. -/
theorem claim_c7_auto_grid (total stp : ℚ) (h : 0 < stp) :
    (autoGrid total stp).Sorted (· ≤ ·) ∧
      (∀ g ∈ autoGrid total stp, g ≤ total) ∧
      (autoGrid total stp).getLast? = some total :=
  autoGrid_core total stp h

/-- Witness for C7 at `total = 7`, `step = 5` (grid `[0, 5, 7]`). -/
theorem claim_c7_witness :
    (0 : ℚ) < 5 ∧
      ((autoGrid 7 5).Sorted (· ≤ ·) ∧
        (∀ g ∈ autoGrid 7 5, g ≤ 7) ∧
        (autoGrid 7 5).getLast? = some 7) :=
  ⟨by norm_num, claim_c7_auto_grid 7 5 (by norm_num)⟩

/-! ### C3: the braking state machine's transitions -/

/-- **C3** (counterexample to the claim as stated).  When the smoothed
brake is already at or above `brake_on` at index 0, the transition fires
but the recorded segment start is 0, not "one index before the trigger
index" (which would be −1): the source clamps with `max(0, idx - 1)`. -/
theorem claim_c3_counterexample :
    (3 : ℚ) ≤ ([10, 10, 10] : List ℚ).getD 0 0 ∧
      (machineStep 3 (3 / 2) 40 14 [0, 0, 0] [10, 10, 10] [0, 0, 0]
        ⟨false, 5, 0, []⟩ 0).braking = true ∧
      ¬ ((machineStep 3 (3 / 2) 40 14 [0, 0, 0] [10, 10, 10] [0, 0, 0]
          ⟨false, 5, 0, []⟩ 0).startIdx : ℤ) = (0 : ℤ) - 1 := by
  refine ⟨by norm_num [List.getD], ?_, ?_⟩ <;> with_unfolding_all decide

/-- **C3** (amended).  One scan step of the primary braking state machine:
from `Idle`, the transition to `Braking` fires exactly when the smoothed
brake is at least `brake_on`, and the recorded start is the trigger index
minus one **clamped below at 0**; from `Braking`, the transition to `Idle`
fires exactly when the smoothed brake is at most `brake_off` and the
updated sustain counter is at least 3, and the closed candidate
`[start, end)` is kept exactly when its point count is at least 3 and its
distance span is at least `min_distance`. -/
theorem claim_c3_state_machine (bOn bOff tExit minD : ℚ)
    (dist sb st : List ℚ) (s : MachineState) (idx : ℕ) :
    (s.braking = false →
      ((machineStep bOn bOff tExit minD dist sb st s idx).braking = true ↔
        bOn ≤ sb.getD idx 0) ∧
      (bOn ≤ sb.getD idx 0 →
        ((machineStep bOn bOff tExit minD dist sb st s idx).startIdx : ℤ) =
            max ((idx : ℤ) - 1) 0 ∧
          (machineStep bOn bOff tExit minD dist sb st s idx).segs = s.segs)) ∧
    (s.braking = true →
      ((machineStep bOn bOff tExit minD dist sb st s idx).braking = false ↔
        (sb.getD idx 0 ≤ bOff ∧
          3 ≤ (if tExit ≤ st.getD idx 0 then s.sustain + 1 else 0))) ∧
      ((sb.getD idx 0 ≤ bOff ∧
          3 ≤ (if tExit ≤ st.getD idx 0 then s.sustain + 1 else 0)) →
        (machineStep bOn bOff tExit minD dist sb st s idx).segs =
          (if 3 ≤ idx - s.startIdx ∧
              minD ≤ dist.getD idx 0 - dist.getD s.startIdx 0 then
            s.segs ++ [(s.startIdx, idx)]
          else s.segs))) := by
  constructor
  · intro hb
    simp only [machineStep]
    rw [if_pos hb]
    by_cases htrig : bOn ≤ sb.getD idx 0
    · rw [if_pos htrig]
      refine ⟨⟨fun _ => htrig, fun _ => rfl⟩, fun _ => ⟨?_, rfl⟩⟩
      show ((idx - 1 : ℕ) : ℤ) = max ((idx : ℤ) - 1) 0
      omega
    · rw [if_neg htrig]
      refine ⟨⟨fun h' => ?_, fun h' => absurd h' htrig⟩,
        fun hc => absurd hc htrig⟩
      rw [hb] at h'
      exact absurd h' Bool.false_ne_true
  · intro hb
    have hbf : ¬ s.braking = false := by
      rw [hb]
      exact fun h => Bool.false_ne_true h.symm
    simp only [machineStep]
    rw [if_neg hbf]
    by_cases hclose : sb.getD idx 0 ≤ bOff ∧
        3 ≤ (if tExit ≤ st.getD idx 0 then s.sustain + 1 else 0)
    · rw [if_pos hclose]
      exact ⟨⟨fun _ => hclose, fun _ => rfl⟩, fun _ => rfl⟩
    · rw [if_neg hclose]
      refine ⟨⟨fun h' => ?_, fun h' => absurd h' hclose⟩,
        fun hc => absurd hc hclose⟩
      rw [hb] at h'
      exact absurd h'.symm Bool.false_ne_true

/-- Witness for the amended C3: a concrete idle state triggered at index
1 enters `Braking` with recorded start `max(1 − 1, 0) = 0`. -/
theorem claim_c3_witness :
    (machineStep 3 (3 / 2) 40 14 [0, 0, 0] [0, 10, 10] [0, 0, 0]
        ⟨false, 0, 0, []⟩ 1).braking = true ∧
      ((machineStep 3 (3 / 2) 40 14 [0, 0, 0] [0, 10, 10] [0, 0, 0]
          ⟨false, 0, 0, []⟩ 1).startIdx : ℤ) = max ((1 : ℤ) - 1) 0 := by
  have h := claim_c3_state_machine 3 (3 / 2) 40 14 [0, 0, 0] [0, 10, 10]
    [0, 0, 0] ⟨false, 0, 0, []⟩ 1
  have htrig : (3 : ℚ) ≤ ([0, 10, 10] : List ℚ).getD 1 0 := by
    norm_num [List.getD]
  exact ⟨(h.1 rfl).1.mpr htrig, ((h.1 rfl).2 htrig).1⟩

/-! ### C10: segments are only emitted by a completed close transition -/

/-- The machine's state just before index `k` is scanned: the fold over
the first `k` indices from the idle initial state
(`runMachine = runPrefix` at the full length). -/
def runPrefix (bOn bOff tExit minD : ℚ) (dist sb st : List ℚ) (k : ℕ) :
    MachineState :=
  (List.range k).foldl (machineStep bOn bOff tExit minD dist sb st)
    ⟨false, 0, 0, []⟩

lemma runMachine_eq_runPrefix (bOn bOff tExit minD : ℚ)
    (dist sb st : List ℚ) :
    runMachine bOn bOff tExit minD dist sb st =
      runPrefix bOn bOff tExit minD dist sb st sb.length := rfl

lemma machineStep_segs_closed (bOn bOff tExit minD : ℚ) (dist sb st : List ℚ)
    (s : MachineState) (idx : ℕ) :
    ∀ se ∈ (machineStep bOn bOff tExit minD dist sb st s idx).segs,
      se ∈ s.segs ∨
        (se.2 = idx ∧ s.braking = true ∧ sb.getD idx 0 ≤ bOff ∧
          3 ≤ (if tExit ≤ st.getD idx 0 then s.sustain + 1 else 0)) := by
  intro se hse
  simp only [machineStep] at hse
  by_cases hb : s.braking = false
  · rw [if_pos hb] at hse
    by_cases htrig : bOn ≤ sb.getD idx 0
    · rw [if_pos htrig] at hse
      exact Or.inl hse
    · rw [if_neg htrig] at hse
      exact Or.inl hse
  · rw [if_neg hb] at hse
    have hb' : s.braking = true := by
      cases hbv : s.braking
      · exact absurd hbv hb
      · rfl
    by_cases hclose : sb.getD idx 0 ≤ bOff ∧
        3 ≤ (if tExit ≤ st.getD idx 0 then s.sustain + 1 else 0)
    · rw [if_pos hclose] at hse
      have hse' : se ∈ (if 3 ≤ idx - s.startIdx ∧
          minD ≤ dist.getD idx 0 - dist.getD s.startIdx 0 then
            s.segs ++ [(s.startIdx, idx)] else s.segs) := hse
      by_cases hkeep : 3 ≤ idx - s.startIdx ∧
          minD ≤ dist.getD idx 0 - dist.getD s.startIdx 0
      · rw [if_pos hkeep] at hse'
        rcases List.mem_append.mp hse' with h | h
        · exact Or.inl h
        · rw [List.mem_singleton] at h
          exact Or.inr ⟨by rw [h], hb', hclose.1, hclose.2⟩
      · rw [if_neg hkeep] at hse'
        exact Or.inl hse'
    · rw [if_neg hclose] at hse
      exact Or.inl hse

/-- Every segment present after scanning the first `k` indices was
emitted by a close transition at some earlier index `e`: there the machine
was in the `Braking` state, the smoothed brake was at most `brake_off`,
and the updated sustain counter had reached 3. -/
lemma runPrefix_segs_closed (bOn bOff tExit minD : ℚ)
    (dist sb st : List ℚ) :
    ∀ (k : ℕ) (se : ℕ × ℕ),
      se ∈ (runPrefix bOn bOff tExit minD dist sb st k).segs →
      ∃ e, e < k ∧ se.2 = e ∧
        (runPrefix bOn bOff tExit minD dist sb st e).braking = true ∧
        sb.getD e 0 ≤ bOff ∧
        3 ≤ (if tExit ≤ st.getD e 0 then
          (runPrefix bOn bOff tExit minD dist sb st e).sustain + 1 else 0) := by
  intro k
  induction k with
  | zero =>
    intro se h
    simp [runPrefix] at h
  | succ k ih =>
    intro se h
    rw [runPrefix, List.range_succ, List.foldl_append, List.foldl_cons,
      List.foldl_nil] at h
    rcases machineStep_segs_closed bOn bOff tExit minD dist sb st
        (runPrefix bOn bOff tExit minD dist sb st k) k se h
      with h' | ⟨h1, h2, h3, h4⟩
    · obtain ⟨e, he, rest⟩ := ih se h'
      exact ⟨e, Nat.lt_succ_of_lt he, rest⟩
    · exact ⟨k, Nat.lt_succ_self k, h1, h2, h3, h4⟩

/-- **C10** (confirmed).  If from index `j` on the closing condition of
the `Braking` state — the machine is braking, the smoothed brake is at
most `brake_off`, and the machine's own updated sustain counter has
reached 3 — is never met before the trace ends (whether because the brake
stays above `brake_off` or because the throttle never sustains), then no
segment emitted by the primary state machine ends at or after `j`: a
braking zone still open when the trace ends contributes no candidate. -/
theorem claim_c10_open_segment_discarded (bOn bOff tExit minD : ℚ)
    (dist sb st : List ℚ) (j : ℕ)
    (h : ∀ k, j ≤ k → k < sb.length →
      ¬ ((runPrefix bOn bOff tExit minD dist sb st k).braking = true ∧
        sb.getD k 0 ≤ bOff ∧
        3 ≤ (if tExit ≤ st.getD k 0 then
          (runPrefix bOn bOff tExit minD dist sb st k).sustain + 1 else 0))) :
    ∀ se ∈ (runMachine bOn bOff tExit minD dist sb st).segs, se.2 < j := by
  intro se hse
  rw [runMachine_eq_runPrefix] at hse
  obtain ⟨e, he, h1, h2, h3, h4⟩ :=
    runPrefix_segs_closed bOn bOff tExit minD dist sb st sb.length se hse
  by_contra hj
  push_neg at hj
  rw [h1] at hj
  exact h e hj he ⟨h2, h3, h4⟩

/-- Witness for C10 on a zone that never closes **because of the sustain
counter**: the smoothed brake rises to 10 (trigger at index 0) and then
sits at 1, i.e. at or below `brake_off = 1.5`, but the throttle never
reaches `throttle_exit = 40`, so the updated sustain counter stays 0 and
the closing condition is never met; the machine ends the trace still in
the `Braking` state and emits nothing — in particular not `(0, 5)`. -/
theorem claim_c10_witness :
    (∀ k, 0 ≤ k → k < ([10, 10, 1, 1, 1, 1] : List ℚ).length →
      ¬ ((runPrefix 3 (3 / 2) 40 14 [0, 0, 0, 0, 0, 0] [10, 10, 1, 1, 1, 1]
            [0, 0, 0, 0, 0, 0] k).braking = true ∧
        ([10, 10, 1, 1, 1, 1] : List ℚ).getD k 0 ≤ 3 / 2 ∧
        3 ≤ (if (40 : ℚ) ≤ ([0, 0, 0, 0, 0, 0] : List ℚ).getD k 0 then
          (runPrefix 3 (3 / 2) 40 14 [0, 0, 0, 0, 0, 0] [10, 10, 1, 1, 1, 1]
            [0, 0, 0, 0, 0, 0] k).sustain + 1 else 0))) ∧
      (runMachine 3 (3 / 2) 40 14 [0, 0, 0, 0, 0, 0] [10, 10, 1, 1, 1, 1]
        [0, 0, 0, 0, 0, 0]).braking = true ∧
      (0, 5) ∉ (runMachine 3 (3 / 2) 40 14 [0, 0, 0, 0, 0, 0]
        [10, 10, 1, 1, 1, 1] [0, 0, 0, 0, 0, 0]).segs := by
  have hyp : ∀ k, 0 ≤ k → k < ([10, 10, 1, 1, 1, 1] : List ℚ).length →
      ¬ ((runPrefix 3 (3 / 2) 40 14 [0, 0, 0, 0, 0, 0] [10, 10, 1, 1, 1, 1]
            [0, 0, 0, 0, 0, 0] k).braking = true ∧
        ([10, 10, 1, 1, 1, 1] : List ℚ).getD k 0 ≤ 3 / 2 ∧
        3 ≤ (if (40 : ℚ) ≤ ([0, 0, 0, 0, 0, 0] : List ℚ).getD k 0 then
          (runPrefix 3 (3 / 2) 40 14 [0, 0, 0, 0, 0, 0] [10, 10, 1, 1, 1, 1]
            [0, 0, 0, 0, 0, 0] k).sustain + 1 else 0)) := by
    intro k _ hk
    simp only [List.length_cons, List.length_nil] at hk
    interval_cases k <;> with_unfolding_all decide
  refine ⟨hyp, by with_unfolding_all decide, fun hmem => ?_⟩
  have := claim_c10_open_segment_discarded 3 (3 / 2) 40 14 [0, 0, 0, 0, 0, 0]
    [10, 10, 1, 1, 1, 1] [0, 0, 0, 0, 0, 0] 0 hyp (0, 5) hmem
  exact absurd this (by decide)

/-! ### C9: the curvature fallback's discrete derivatives -/

lemma getD_map_range (n : ℕ) (f : ℕ → ℚ) (i : ℕ) (hi : i < n) :
    ((List.range n).map f).getD i 0 = f i := by
  rw [List.getD_eq_getElem?_getD, List.getElem?_map, List.getElem?_range hi]
  rfl

lemma length_firstDerivs (v : List ℚ) : (firstDerivs v).length = v.length := by
  simp [firstDerivs]

lemma length_innerDerivs (v : List ℚ) : (innerDerivs v).length = v.length := by
  simp [innerDerivs]

/-- **C9** (counterexample to the claim as stated).  On `x = [0,0,1,4,9]`
the second derivative array computed by the source is **not** the result
of applying the first-derivative routine (central differences with
boundary clamping) to the first derivatives: the source leaves both
boundary entries of the second derivatives at 0. -/
theorem claim_c9_counterexample :
    innerDerivs (firstDerivs [0, 0, 1, 4, 9]) ≠
      firstDerivs (firstDerivs [0, 0, 1, 4, 9]) := by
  with_unfolding_all decide

/-- **C9** (amended).  For any coordinate array of length > 2: the first
derivatives are central differences with both boundary entries clamped to
the nearest interior derivative (as claimed), but the second derivatives
are central differences of the clamped first derivatives on **interior
indices only** — both boundary entries are left at 0, not clamped. -/
theorem claim_c9_derivatives (v : List ℚ) (h : 2 < v.length) :
    ((firstDerivs v).length = v.length ∧
      (firstDerivs v).getD 0 0 = (firstDerivs v).getD 1 0 ∧
      (firstDerivs v).getD (v.length - 1) 0 =
        (firstDerivs v).getD (v.length - 2) 0 ∧
      (∀ i, 1 ≤ i → i ≤ v.length - 2 →
        (firstDerivs v).getD i 0 = (v.getD (i + 1) 0 - v.getD (i - 1) 0) / 2)) ∧
    ((innerDerivs (firstDerivs v)).length = v.length ∧
      (innerDerivs (firstDerivs v)).getD 0 0 = 0 ∧
      (innerDerivs (firstDerivs v)).getD (v.length - 1) 0 = 0 ∧
      (∀ i, 1 ≤ i → i ≤ v.length - 2 →
        (innerDerivs (firstDerivs v)).getD i 0 =
          ((firstDerivs v).getD (i + 1) 0 - (firstDerivs v).getD (i - 1) 0) / 2)) := by
  have hn := v.length
  constructor
  · refine ⟨length_firstDerivs v, ?_, ?_, ?_⟩
    · rw [firstDerivs, getD_map_range _ _ 0 (by omega),
        getD_map_range _ _ 1 (by omega)]
      rw [if_pos rfl, if_neg (by omega : ¬ (1 : ℕ) = 0),
        if_neg (by omega : ¬ (1 : ℕ) = v.length - 1)]
    · rw [firstDerivs, getD_map_range _ _ (v.length - 1) (by omega),
        getD_map_range _ _ (v.length - 2) (by omega)]
      rw [if_neg (by omega : ¬ v.length - 1 = 0), if_pos rfl,
        if_neg (by omega : ¬ v.length - 2 = 0),
        if_neg (by omega : ¬ v.length - 2 = v.length - 1)]
      have e1 : v.length - 2 + 1 = v.length - 1 := by omega
      have e2 : v.length - 2 - 1 = v.length - 3 := by omega
      rw [e1, e2]
    · intro i h1 h2
      rw [firstDerivs, getD_map_range _ _ i (by omega)]
      rw [if_neg (by omega : ¬ i = 0), if_neg (by omega : ¬ i = v.length - 1)]
  · have hlen : (firstDerivs v).length = v.length := length_firstDerivs v
    refine ⟨by rw [length_innerDerivs, hlen], ?_, ?_, ?_⟩
    · rw [innerDerivs, hlen, getD_map_range _ _ 0 (by omega)]
      rw [if_neg (by omega : ¬ (1 ≤ (0:ℕ) ∧ (0:ℕ) ≤ v.length - 2))]
    · rw [innerDerivs, hlen, getD_map_range _ _ (v.length - 1) (by omega)]
      rw [if_neg (by omega :
        ¬ (1 ≤ v.length - 1 ∧ v.length - 1 ≤ v.length - 2))]
    · intro i h1 h2
      rw [innerDerivs, hlen, getD_map_range _ _ i (by omega)]
      rw [if_pos ⟨h1, h2⟩]

/-- Witness for the amended C9 at `v = [0, 0, 1, 4, 9]`. -/
theorem claim_c9_witness :
    2 < ([0, 0, 1, 4, 9] : List ℚ).length ∧
      (((firstDerivs [0, 0, 1, 4, 9]).length =
          ([0, 0, 1, 4, 9] : List ℚ).length ∧
        (firstDerivs [0, 0, 1, 4, 9]).getD 0 0 =
          (firstDerivs [0, 0, 1, 4, 9]).getD 1 0 ∧
        (firstDerivs [0, 0, 1, 4, 9]).getD (([0, 0, 1, 4, 9] : List ℚ).length - 1) 0 =
          (firstDerivs [0, 0, 1, 4, 9]).getD (([0, 0, 1, 4, 9] : List ℚ).length - 2) 0 ∧
        (∀ i, 1 ≤ i → i ≤ ([0, 0, 1, 4, 9] : List ℚ).length - 2 →
          (firstDerivs [0, 0, 1, 4, 9]).getD i 0 =
            (([0, 0, 1, 4, 9] : List ℚ).getD (i + 1) 0 -
              ([0, 0, 1, 4, 9] : List ℚ).getD (i - 1) 0) / 2)) ∧
      ((innerDerivs (firstDerivs [0, 0, 1, 4, 9])).length =
          ([0, 0, 1, 4, 9] : List ℚ).length ∧
        (innerDerivs (firstDerivs [0, 0, 1, 4, 9])).getD 0 0 = 0 ∧
        (innerDerivs (firstDerivs [0, 0, 1, 4, 9])).getD
          (([0, 0, 1, 4, 9] : List ℚ).length - 1) 0 = 0 ∧
        (∀ i, 1 ≤ i → i ≤ ([0, 0, 1, 4, 9] : List ℚ).length - 2 →
          (innerDerivs (firstDerivs [0, 0, 1, 4, 9])).getD i 0 =
            ((firstDerivs [0, 0, 1, 4, 9]).getD (i + 1) 0 -
              (firstDerivs [0, 0, 1, 4, 9]).getD (i - 1) 0) / 2))) :=
  ⟨by norm_num, claim_c9_derivatives [0, 0, 1, 4, 9] (by norm_num)⟩

/-! ### C8: carry-forward of missing speed/throttle/brake values -/

/-- The scan the source's `or`-defaulting induces on one field: each output
is `pyOr` of the sample value with the previous output (the seed is the
first output's default). -/
def carry (prev : ℚ) : List (Option ℚ) → List ℚ
  | [] => []
  | v :: t => pyOr v prev :: carry (pyOr v prev) t

lemma carry_length (prev : ℚ) (vals : List (Option ℚ)) :
    (carry prev vals).length = vals.length := by
  induction vals generalizing prev with
  | nil => rfl
  | cons v t ih => simp [carry, ih]

lemma carry_getD (vals : List (Option ℚ)) :
    ∀ (prev : ℚ) (i : ℕ), i < vals.length →
      (carry prev vals).getD i 0 =
        pyOr (vals.getD i none)
          (if i = 0 then prev else (carry prev vals).getD (i - 1) 0) := by
  induction vals with
  | nil => intro prev i hi; simp at hi
  | cons v t ih =>
    intro prev i hi
    cases i with
    | zero => simp [carry]
    | succ j =>
      rw [carry]
      cases j with
      | zero =>
        rcases t with _ | ⟨w, t'⟩
        · simp at hi
        · simp [carry]
      | succ k =>
        have hk : k + 1 < t.length := by
          simp at hi
          omega
        have := ih (pyOr v prev) (k + 1) hk
        simpa [carry] using this

lemma getLastD_append_singleton (l : List ℚ) (a : ℚ) :
    (l ++ [a]).getLastD 0 = a := by
  rw [List.getLastD_eq_getLast?, List.getLast?_concat]
  rfl

lemma buildLoop_carry (hyp : ℚ → ℚ → ℚ) :
    ∀ (rest : List Sample) (px py t0 : ℚ) (acc : Series),
      (buildLoop hyp px py t0 acc rest).speed =
          acc.speed ++
            carry (acc.speed.getLastD 0) (rest.map (fun s => s.speed)) ∧
        (buildLoop hyp px py t0 acc rest).throttle =
          acc.throttle ++
            carry (acc.throttle.getLastD 0) (rest.map (fun s => s.throttle)) ∧
        (buildLoop hyp px py t0 acc rest).brake =
          acc.brake ++
            carry (acc.brake.getLastD 0) (rest.map (fun s => s.brake)) := by
  intro rest
  induction rest with
  | nil =>
    intro px py t0 acc
    refine ⟨?_, ?_, ?_⟩ <;> simp [buildLoop, carry]
  | cons s t ih =>
    intro px py t0 acc
    simp only [buildLoop]
    obtain ⟨h1, h2, h3⟩ := ih (s.x.getD 0) (s.y.getD 0) t0 _
    rw [h1, h2, h3]
    dsimp only
    rw [getLastD_append_singleton, getLastD_append_singleton,
      getLastD_append_singleton]
    refine ⟨?_, ?_, ?_⟩ <;> rw [List.map_cons, carry, List.append_assoc] <;> rfl

/-- One field of the built series obeys the source's `or`-defaulting: the
value at a present, non-zero sample; the carried previous output at a
missing **or zero** sample; and 0 at the first sample when it is missing
or zero. -/
def carriesPy (vals : List (Option ℚ)) (out : List ℚ) : Prop :=
  out.length = vals.length ∧
    ∀ i, i < vals.length →
      ((∀ w, vals.getD i none = some w → w ≠ 0 → out.getD i 0 = w) ∧
        ((vals.getD i none = none ∨ vals.getD i none = some 0) →
          out.getD i 0 = if i = 0 then 0 else out.getD (i - 1) 0))

lemma carry_carriesPy (vals : List (Option ℚ)) :
    carriesPy vals (carry 0 vals) := by
  refine ⟨carry_length 0 vals, fun i hi => ?_⟩
  have h := carry_getD vals 0 i hi
  constructor
  · intro w hw hw0
    rw [h, hw, pyOr, if_neg hw0]
  · intro hcase
    rw [h]
    rcases hcase with hc | hc
    · rw [hc]
      rfl
    · rw [hc]
      simp [pyOr]

lemma build_series_carry (hyp : ℚ → ℚ → ℚ) (rows : List Sample) (S : Series)
    (h : build_series hyp rows = some S) :
    S.speed = carry 0 ((validSamples rows).map (fun s => s.speed)) ∧
      S.throttle = carry 0 ((validSamples rows).map (fun s => s.throttle)) ∧
      S.brake = carry 0 ((validSamples rows).map (fun s => s.brake)) := by
  rw [build_series] at h
  by_cases hlen : (validSamples rows).length < 2
  · rw [if_pos hlen] at h
    exact absurd h (Option.noConfusion)
  · rw [if_neg hlen] at h
    have hS : S = mkSeries hyp (validSamples rows) := (Option.some.injEq _ _).mp h.symm
    rcases hsam : validSamples rows with _ | ⟨s0, rest⟩
    · rw [hsam] at hlen
      simp at hlen
    · rw [hsam] at hS
      rw [hS, mkSeries]
      dsimp only [List.headD, List.tail]
      obtain ⟨h1, h2, h3⟩ := buildLoop_carry hyp rest (s0.x.getD 0)
        (s0.y.getD 0) (s0.ts.getD 0) _
      rw [h1, h2, h3]
      dsimp only
      refine ⟨?_, ?_, ?_⟩ <;>
        rw [List.map_cons, carry, List.getLastD] <;> rfl

/-- **C8** (amended).  For every built series, each of the speed, throttle
and brake outputs equals the sample's value whenever that value is present
**and non-zero**; a missing *or zero* value (both falsy under Python
`or`) is carried forward from the previous output value, and a missing or
zero value at the first valid sample becomes 0. -/
theorem claim_c8_carry_forward (hyp : ℚ → ℚ → ℚ) (rows : List Sample)
    (S : Series) (h : build_series hyp rows = some S) :
    carriesPy ((validSamples rows).map (fun s => s.speed)) S.speed ∧
      carriesPy ((validSamples rows).map (fun s => s.throttle)) S.throttle ∧
      carriesPy ((validSamples rows).map (fun s => s.brake)) S.brake := by
  obtain ⟨h1, h2, h3⟩ := build_series_carry hyp rows S h
  rw [h1, h2, h3]
  exact ⟨carry_carriesPy _, carry_carriesPy _, carry_carriesPy _⟩

/-- `math.hypot` on axis-aligned displacements: `|a| + |b|` agrees with
the Euclidean norm whenever one argument is 0, which covers every input
used in the concrete evaluations below. -/
def hyp0 : ℚ → ℚ → ℚ := fun a b => |a| + |b|

def rows8 : List Sample :=
  [⟨some 0, some 50, none, none, some 0, some 0⟩,
    ⟨some 1, some 0, none, none, some 1, some 0⟩]

def S8 : Series := ⟨[0, 1], [0, 1], [50, 50], [0, 0], [0, 0], [0, 1], [0, 0]⟩

/-- **C8** (counterexample to the claim as stated).  The second valid
sample's speed is present and equal to 0, yet the built series' speed
there is the carried 50, not 0: Python's `or` treats the float `0.0` as
missing. -/
theorem claim_c8_counterexample :
    ((validSamples rows8).map (fun s => s.speed)).getD 1 none = some 0 ∧
      build_series hyp0 rows8 = some S8 ∧
      S8.speed.getD 1 0 = 50 ∧ (50 : ℚ) ≠ 0 := by
  refine ⟨?_, ?_, ?_, ?_⟩ <;> with_unfolding_all decide

/-- Witness for the amended C8 at the concrete rows `rows8`. -/
theorem claim_c8_witness :
    build_series hyp0 rows8 = some S8 ∧
      (carriesPy ((validSamples rows8).map (fun s => s.speed)) S8.speed ∧
        carriesPy ((validSamples rows8).map (fun s => s.throttle)) S8.throttle ∧
        carriesPy ((validSamples rows8).map (fun s => s.brake)) S8.brake) :=
  ⟨by with_unfolding_all decide,
    claim_c8_carry_forward hyp0 rows8 S8 (by with_unfolding_all decide)⟩

/-! ### Provenance of every output corner -/

lemma build_corner_some {reference : Series} {compare : Option Series}
    {minD minTime minDrop mPeak : ℚ} {se : ℕ × ℕ} {c : Corner}
    (h : build_corner reference compare minD minTime minDrop mPeak se = some c) :
    c.distanceStart = reference.dist.getD se.1 0 ∧
      c.distanceEnd = reference.dist.getD se.2 0 ∧
      minD ≤ c.distanceEnd - c.distanceStart ∧
      c.deltaS = compare.map (fun cs =>
        (cs.time.getD se.2 0 - cs.time.getD se.1 0) -
          (reference.time.getD se.2 0 - reference.time.getD se.1 0)) := by
  simp only [build_corner] at h
  split_ifs at h with h1 h2 h3
  rw [Option.some.injEq] at h
  subst h
  refine ⟨rfl, rfl, ?_, ?_⟩
  · exact not_lt.mp h1
  · cases compare <;> rfl

lemma mem_cornersPre {pw : ℚ → ℚ} {reference : Series} {compare : Option Series}
    {bOn bOff tExit minD minDrop minTime mPeak : ℚ} {c : Corner}
    (h : c ∈ cornersPre pw reference compare bOn bOff tExit minD minDrop
      minTime mPeak) :
    ∃ se, build_corner reference compare minD minTime minDrop mPeak se = some c := by
  simp only [cornersPre] at h
  split at h
  all_goals split at h
  all_goals
    first
    | (rcases List.mem_append.mp h with h' | h' <;>
        · rw [List.mem_filterMap] at h'
          obtain ⟨se, _, hse⟩ := h'
          exact ⟨se, hse⟩)
    | (rw [List.mem_filterMap] at h
       obtain ⟨se, _, hse⟩ := h
       exact ⟨se, hse⟩)

lemma mem_finalize {l : List Corner} {c : Corner} (h : c ∈ finalize l) :
    ∃ c₀ ∈ l, stripIdx c = stripIdx c₀ := by
  rw [finalize] at h
  split at h
  · exact absurd h (List.not_mem_nil c)
  · obtain ⟨c3, hc3, hs3⟩ := mem_renumberFrom h
    rw [mem_sortByKey] at hc3
    have hc2 := List.mem_of_mem_take hc3
    rw [mem_sortByKeyDesc] at hc2
    obtain ⟨c1, hc1, hs1⟩ := mem_renumberFrom hc2
    rw [mem_sortByKey] at hc1
    exact ⟨c1, hc1, hs3.trans hs1⟩

lemma mem_detect_corners {pw : ℚ → ℚ} {reference : Series}
    {compare : Option Series}
    {brake_on brake_off throttle_exit min_distance min_drop min_time
      min_peak_brake : ℚ} {scale01 : Bool} {c : Corner}
    (h : c ∈ detect_corners pw reference compare brake_on brake_off
      throttle_exit min_distance min_drop min_time min_peak_brake scale01) :
    ∃ se c₀,
      build_corner reference compare min_distance min_time min_drop
        (if scale01 then min_peak_brake / 100 else min_peak_brake) se =
          some c₀ ∧
      stripIdx c = stripIdx c₀ := by
  simp only [detect_corners] at h
  obtain ⟨c₀, hc₀, hs⟩ := mem_finalize h
  obtain ⟨se, hse⟩ := mem_cornersPre hc₀
  exact ⟨se, c₀, hse, hs⟩

/-! ### C2: the comparison delta of every output corner -/

/-- **C2** (confirmed).  Every corner emitted by `_detect_corners` has
`delta_s = None` when no comparison series is supplied; when one is, its
`delta_s` is the comparison time span minus the reference time span over
the corner's own `[start, end]` indices (the indices whose distances are
the corner's `distance_start` / `distance_end`). -/
theorem claim_c2_delta_s (pw : ℚ → ℚ) (reference : Series)
    (compare : Option Series)
    (brake_on brake_off throttle_exit min_distance min_drop min_time
      min_peak_brake : ℚ) (scale01 : Bool) (c : Corner)
    (h : c ∈ detect_corners pw reference compare brake_on brake_off
      throttle_exit min_distance min_drop min_time min_peak_brake scale01) :
    (compare = none → c.deltaS = none) ∧
      (∀ cs, compare = some cs → ∃ s e : ℕ,
        c.distanceStart = reference.dist.getD s 0 ∧
        c.distanceEnd = reference.dist.getD e 0 ∧
        c.deltaS = some ((cs.time.getD e 0 - cs.time.getD s 0) -
          (reference.time.getD e 0 - reference.time.getD s 0))) := by
  obtain ⟨se, c₀, hb, hs⟩ := mem_detect_corners h
  obtain ⟨hd1, hd2, _, hdel⟩ := build_corner_some hb
  obtain ⟨f1, f2, f3⟩ := stripIdx_fields hs
  constructor
  · intro hnone
    rw [f3, hdel, hnone]
    rfl
  · intro cs hsome
    refine ⟨se.1, se.2, f1.trans hd1, f2.trans hd2, ?_⟩
    rw [f3, hdel, hsome]
    rfl

def pw0 : ℚ → ℚ := fun t => t

def ref4 : Series :=
  ⟨[0, 0, 0, 0, 0], [0, 1, 2, 3, 4], [50, 50, 50, 50, 50], [0, 0, 0, 0, 0],
    [0, 0, 0, 0, 0], [0, 0, 0, 0, 0], [0, 0, 0, 0, 0]⟩

def cmp2 : Series :=
  ⟨[0, 0, 0, 0, 0], [0, 2, 4, 6, 8], [0, 0, 0, 0, 0], [0, 0, 0, 0, 0],
    [0, 0, 0, 0, 0], [0, 0, 0, 0, 0], [0, 0, 0, 0, 0]⟩

def c2w : Corner := ⟨0, 0, 50, 50, 50, 0, 0, some 3, 1⟩

/-- Witness for C2 on a concrete reference/comparison pair whose single
corner spans indices 0..3 with delta `(6 − 0) − (3 − 0) = 3`. -/
theorem claim_c2_witness :
    c2w ∈ detect_corners pw0 ref4 (some cmp2) 0 100 0 0 0 0 0 false ∧
      ((some cmp2 = none → c2w.deltaS = none) ∧
        (∀ cs, some cmp2 = some cs → ∃ s e : ℕ,
          c2w.distanceStart = ref4.dist.getD s 0 ∧
          c2w.distanceEnd = ref4.dist.getD e 0 ∧
          c2w.deltaS = some ((cs.time.getD e 0 - cs.time.getD s 0) -
            (ref4.time.getD e 0 - ref4.time.getD s 0)))) :=
  ⟨by with_unfolding_all decide,
    claim_c2_delta_s pw0 ref4 (some cmp2) 0 100 0 0 0 0 0 false c2w
      (by with_unfolding_all decide)⟩

/-! ### C4: the distance-span invariant of every output corner -/

def c4cx : Corner := ⟨0, 0, 50, 50, 50, 0, 0, none, 1⟩

/-- **C4** (counterexample to the claim as stated).  With
`min_distance = 0` (the threshold configuration is caller-supplied and
unvalidated) a degenerate series whose distances are all 0 produces a
corner with `distance_end = distance_start`, so `distance_end >
distance_start` does not hold for every threshold configuration. -/
theorem claim_c4_counterexample :
    c4cx ∈ detect_corners pw0 ref4 none 0 100 0 0 0 0 0 false ∧
      ¬ c4cx.distanceStart < c4cx.distanceEnd := by
  constructor <;> with_unfolding_all decide

/-- **C4** (amended).  Every corner in the final output satisfies
`distance_end − distance_start ≥ min_distance`; consequently
`distance_end > distance_start` holds whenever `min_distance > 0` (true
for the documented default 14.0, but not for every configuration). -/
theorem claim_c4_min_distance (pw : ℚ → ℚ) (reference : Series)
    (compare : Option Series)
    (brake_on brake_off throttle_exit min_distance min_drop min_time
      min_peak_brake : ℚ) (scale01 : Bool) (c : Corner)
    (h : c ∈ detect_corners pw reference compare brake_on brake_off
      throttle_exit min_distance min_drop min_time min_peak_brake scale01) :
    min_distance ≤ c.distanceEnd - c.distanceStart ∧
      (0 < min_distance → c.distanceStart < c.distanceEnd) := by
  obtain ⟨se, c₀, hb, hs⟩ := mem_detect_corners h
  obtain ⟨hd1, hd2, hspan, _⟩ := build_corner_some hb
  obtain ⟨f1, f2, _⟩ := stripIdx_fields hs
  have hspan' : min_distance ≤ c.distanceEnd - c.distanceStart := by
    rw [f1, f2]
    exact hspan
  exact ⟨hspan', fun hpos => by linarith⟩

def ref5 : Series :=
  ⟨[0, 10, 20, 30, 40], [0, 1, 2, 3, 4], [50, 50, 50, 50, 50],
    [0, 0, 0, 0, 0], [0, 0, 0, 0, 0], [0, 0, 0, 0, 0], [0, 0, 0, 0, 0]⟩

def c4w : Corner := ⟨0, 30, 50, 50, 50, 0, 0, none, 1⟩

/-- Witness for the amended C4 with a positive `min_distance = 5`. -/
theorem claim_c4_witness :
    c4w ∈ detect_corners pw0 ref5 none 0 100 0 5 0 0 0 false ∧
      ((5 : ℚ) ≤ c4w.distanceEnd - c4w.distanceStart ∧
        (0 < (5 : ℚ) → c4w.distanceStart < c4w.distanceEnd)) :=
  ⟨by with_unfolding_all decide,
    claim_c4_min_distance pw0 ref5 none 0 100 0 5 0 0 0 false c4w
      (by with_unfolding_all decide)⟩

/-! ### C5: shape of the final corner list -/

lemma finalize_shape (l : List Corner) :
    (finalize l).length ≤ 22 ∧
      (finalize l).Sorted (fun a b => a.distanceStart ≤ b.distanceStart) ∧
      (finalize l).map (fun c => c.corner) =
        List.range' 1 (finalize l).length := by
  rw [finalize]
  split
  · exact ⟨by norm_num, List.sorted_nil, rfl⟩
  · refine ⟨?_, ?_, ?_⟩
    · rw [length_renumberFrom, (perm_sortByKey _ _).length_eq,
        List.length_take]
      exact min_le_left _ _
    · exact @sorted_renumberFrom (fun c => c.distanceStart) (fun _ _ => rfl) 1
        _ (sorted_sortByKey _ _)
    · rw [map_corner_renumberFrom, length_renumberFrom]

/-- **C5** (confirmed).  The final corner list has at most 22 entries, is
sorted (non-decreasingly) by `distance_start`, and its `corner` fields are
exactly `1, 2, …, N` for its length `N`. -/
theorem claim_c5_final_list_shape (pw : ℚ → ℚ) (reference : Series)
    (compare : Option Series)
    (brake_on brake_off throttle_exit min_distance min_drop min_time
      min_peak_brake : ℚ) (scale01 : Bool) :
    (detect_corners pw reference compare brake_on brake_off throttle_exit
        min_distance min_drop min_time min_peak_brake scale01).length ≤ 22 ∧
      (detect_corners pw reference compare brake_on brake_off throttle_exit
        min_distance min_drop min_time min_peak_brake scale01).Sorted
          (fun a b => a.distanceStart ≤ b.distanceStart) ∧
      (detect_corners pw reference compare brake_on brake_off throttle_exit
        min_distance min_drop min_time min_peak_brake scale01).map
          (fun c => c.corner) =
        List.range' 1 (detect_corners pw reference compare brake_on brake_off
          throttle_exit min_distance min_drop min_time min_peak_brake
          scale01).length := by
  simp only [detect_corners]
  exact finalize_shape _

/-! ### C6: the top-losses ranking -/

lemma topLossesOf_shape (corners : List Corner) :
    (topLossesOf corners).length ≤ 3 ∧
      (∀ l ∈ topLossesOf corners, 0 < l.delta_s) ∧
      (topLossesOf corners).Sorted (fun a b => b.delta_s ≤ a.delta_s) := by
  rw [topLossesOf]
  refine ⟨?_, ?_, ?_⟩
  · rw [List.length_map, List.length_take]
    exact min_le_left _ _
  · intro l hl
    rw [List.mem_map] at hl
    obtain ⟨cc, hcc, rfl⟩ := hl
    have hcc' := List.mem_of_mem_take hcc
    rw [mem_sortByKeyDesc, List.mem_filter] at hcc'
    have hp := hcc'.2
    cases hd : cc.deltaS with
    | none =>
      rw [hd] at hp
      exact absurd hp (by simp)
    | some d =>
      rw [hd] at hp
      exact of_decide_eq_true hp
  · have h1 := sorted_sortByKeyDesc (fun c => c.deltaS.getD 0)
      (corners.filter (fun c =>
        match c.deltaS with
        | some d => decide (0 < d)
        | none => false))
    have h2 := h1.sublist (List.take_sublist 3 _)
    exact List.Pairwise.map _ (fun a b hab => hab) h2

/-- **C6** (amended).  For every analysis result, `top_losses` has at most
3 entries, every entry has `delta_s > 0`, and the entries are sorted in
non-increasing (descending, ties allowed) order of `delta_s`.  Strictly
descending order does not hold in general (two corners can tie). -/
theorem claim_c6_top_losses (pw : ℚ → ℚ) (reference : Series)
    (compare : Option Series)
    (brake_on brake_off throttle_exit min_distance min_drop min_time
      min_peak_brake : ℚ) (scale01 : Bool) :
    (analyze pw reference compare brake_on brake_off throttle_exit
        min_distance min_drop min_time min_peak_brake scale01).topLosses.length
      ≤ 3 ∧
      (∀ l ∈ (analyze pw reference compare brake_on brake_off throttle_exit
        min_distance min_drop min_time min_peak_brake scale01).topLosses,
        0 < l.delta_s) ∧
      (analyze pw reference compare brake_on brake_off throttle_exit
        min_distance min_drop min_time min_peak_brake
        scale01).topLosses.Sorted (fun a b => b.delta_s ≤ a.delta_s) := by
  simp only [analyze]
  exact topLossesOf_shape _

def ref6 : Series :=
  ⟨[0, 100, 200, 300, 400, 500, 600, 700, 800, 900, 1000, 1100, 1200, 1300,
      1400, 1500, 1600, 1700, 1800, 1900, 2000, 2100],
    [0, 1, 2, 3, 4, 5, 6, 7, 8, 9, 10, 11, 12, 13, 14, 15, 16, 17, 18, 19,
      20, 21],
    [50, 50, 50, 50, 50, 50, 50, 50, 50, 50, 50, 50, 50, 50, 50, 50, 50, 50,
      50, 50, 50, 50],
    [100, 100, 100, 100, 100, 100, 100, 100, 100, 100, 100, 100, 100, 100,
      100, 100, 100, 100, 100, 100, 100, 100],
    [0, 0, 0, 0, 100, 0, 0, 0, 0, 0, 0, 0, 0, 0, 0, 100, 0, 0, 0, 0, 0, 0],
    [0, 0, 0, 0, 0, 0, 0, 0, 0, 0, 0, 0, 0, 0, 0, 0, 0, 0, 0, 0, 0, 0],
    [0, 0, 0, 0, 0, 0, 0, 0, 0, 0, 0, 0, 0, 0, 0, 0, 0, 0, 0, 0, 0, 0]⟩

def cmp6 : Series :=
  ⟨[0, 100, 200, 300, 400, 500, 600, 700, 800, 900, 1000, 1100, 1200, 1300,
      1400, 1500, 1600, 1700, 1800, 1900, 2000, 2100],
    [0, 1, 2, 3, 4, 7, 8, 9, 10, 11, 12, 13, 14, 15, 16, 19, 20, 21, 22, 23,
      24, 25],
    [50, 50, 50, 50, 50, 50, 50, 50, 50, 50, 50, 50, 50, 50, 50, 50, 50, 50,
      50, 50, 50, 50],
    [100, 100, 100, 100, 100, 100, 100, 100, 100, 100, 100, 100, 100, 100,
      100, 100, 100, 100, 100, 100, 100, 100],
    [0, 0, 0, 0, 100, 0, 0, 0, 0, 0, 0, 0, 0, 0, 0, 100, 0, 0, 0, 0, 0, 0],
    [0, 0, 0, 0, 0, 0, 0, 0, 0, 0, 0, 0, 0, 0, 0, 0, 0, 0, 0, 0, 0, 0],
    [0, 0, 0, 0, 0, 0, 0, 0, 0, 0, 0, 0, 0, 0, 0, 0, 0, 0, 0, 0, 0, 0]⟩

set_option maxRecDepth 100000 in
/-- **C6** (counterexample to the claim as stated).  A reference lap with
two braking zones and a comparison lap that is 2 seconds slower over each
yields `top_losses = [(1, 2), (2, 2)]` (with the default thresholds): two
equal deltas, so the list is not **strictly** descending. -/
theorem claim_c6_counterexample :
    (analyze pw0 ref6 (some cmp6) 3 (3 / 2) 40 14 9 (3 / 20) (1 / 2)
        false).topLosses = [⟨1, 2⟩, ⟨2, 2⟩] ∧
      ¬ (analyze pw0 ref6 (some cmp6) 3 (3 / 2) 40 14 9 (3 / 20) (1 / 2)
          false).topLosses.Sorted (fun a b => b.delta_s < a.delta_s) := by
  constructor <;> with_unfolding_all decide

/-! ### C1: empty result on insufficient data -/

lemma build_series_none_iff (hyp : ℚ → ℚ → ℚ) (rows : List Sample) :
    build_series hyp rows = none ↔ (validSamples rows).length < 2 := by
  simp only [build_series]
  split_ifs with h'
  · simp [h']
  · simp [h']

/-- **C1** (confirmed).  If the reference lap has fewer than 2 valid
samples (position and timestamp present), or a comparison lap was
requested and has fewer than 2 valid samples, the analysis result is
exactly `{corners: [], top_losses: []}` — the embedding is a total
function, so no error is raised. -/
theorem claim_c1_empty_on_insufficient_data (hyp : ℚ → ℚ → ℚ) (pw : ℚ → ℚ)
    (ref_rows : List Sample) (cmpRequested : Bool) (cmp_rows : List Sample)
    (stp brake_on brake_off throttle_exit min_distance min_drop min_time
      min_peak_brake : ℚ) (scale01 : Bool)
    (h : (validSamples ref_rows).length < 2 ∨
      (cmpRequested = true ∧ (validSamples cmp_rows).length < 2)) :
    lap_corners hyp pw ref_rows cmpRequested cmp_rows stp brake_on brake_off
      throttle_exit min_distance min_drop min_time min_peak_brake scale01 =
      ⟨[], []⟩ := by
  simp only [lap_corners]
  rcases h with h | ⟨hreq, hcmp⟩
  · rw [(build_series_none_iff hyp ref_rows).mpr h]
  · cases hb : build_series hyp ref_rows with
    | none => rfl
    | some rs =>
      have hcs : (if cmpRequested = true ∧ cmp_rows ≠ [] then
          build_series hyp cmp_rows else none) = none := by
        split_ifs with hcond
        · exact (build_series_none_iff hyp cmp_rows).mpr hcmp
        · rfl
      rw [hcs]
      simp [hreq]

def rows1 : List Sample := [⟨some 0, some 1, none, none, none, some 0⟩]

/-- Witness for C1: a single sample with no position yields the empty
result. -/
theorem claim_c1_witness :
    ((validSamples rows1).length < 2 ∨
      (false = true ∧ (validSamples ([] : List Sample)).length < 2)) ∧
      lap_corners hyp0 pw0 rows1 false [] 5 3 (3 / 2) 40 14 9 (3 / 20)
        (1 / 2) false = ⟨[], []⟩ :=
  ⟨Or.inl (by with_unfolding_all decide),
    claim_c1_empty_on_insufficient_data hyp0 pw0 rows1 false [] 5 3 (3 / 2)
      40 14 9 (3 / 20) (1 / 2) false
      (Or.inl (by with_unfolding_all decide))⟩

end BehindTheGrid
